import Mathlib

/-!
# greply: argument building, result normalisation, executable resolution, installer

A shallow embedding of `src/index.js`.  JavaScript values are a small sum type,
exceptions are the error side of `Except`, the external process is an outcome
handed to the code that surrounds the `await`, and the file system is an explicit
state.  Node's own library functions (`path.resolve`, `path.join`, `fs.*`,
`String.prototype.trim`) are not part of the repository; they are modelled from
Node's documented POSIX behaviour and each such definition says so.
-/

namespace Greply

/-! ## JavaScript values -/

/-- A JavaScript Number, as far as the module observes one.
`int i` is an integral value in the safe range (printed as its decimal numeral);
`large` is an integral value beyond it, carried with the text `String(n)` gives;
`frac` is a finite non-integral value with its text; `inf` and `nan` are the
non-finite ones. -/
inductive JSNum where
  | int (i : Int)
  | large (negative : Bool) (text : String)
  | frac (negative : Bool) (text : String)
  | inf (negative : Bool)
  | nan
  deriving DecidableEq, Repr

/-- A JavaScript value.  `obj text` is any object (array, function, Error, Buffer),
carried with the text `String(o)` gives. -/
inductive JSVal where
  | undefined
  | null
  | bool (b : Bool)
  | num (n : JSNum)
  | str (s : String)
  | obj (text : String)
  deriving DecidableEq, Repr

/-- `Number.isInteger(n)` on a Number. -/
def JSNum.isInteger : JSNum → Bool
  | .int _ => true
  | .large _ _ => true
  | _ => false

/-- The comparison `n >= 0` on a Number. -/
def JSNum.geZero : JSNum → Bool
  | .int i => decide (0 ≤ i)
  | .large negative _ => !negative
  | .frac negative _ => !negative
  | .inf negative => !negative
  | .nan => false

/-- `String(n)` on a Number. -/
def JSNum.toStr : JSNum → String
  | .int i => toString i
  | .large _ text => text
  | .frac _ text => text
  | .inf negative => if negative then "-Infinity" else "Infinity"
  | .nan => "NaN"

/-- ToBoolean: the truthiness every `if (x)`, `!x`, `x ? a : b`, `x || y` uses. -/
def JSVal.truthy : JSVal → Bool
  | .undefined => false
  | .null => false
  | .bool b => b
  | .num (.int i) => decide (i ≠ 0)
  | .num .nan => false
  | .num _ => true
  | .str s => decide (s.data ≠ [])
  | .obj _ => true

/-- `String(v)`, also what a template literal does to an interpolated value. -/
def JSVal.toStr : JSVal → String
  | .undefined => "undefined"
  | .null => "null"
  | .bool b => if b then "true" else "false"
  | .num n => n.toStr
  | .str s => s
  | .obj text => text

/-- `Number.isInteger(v)`: false for everything that is not a Number. -/
def JSVal.isInteger : JSVal → Bool
  | .num n => n.isInteger
  | _ => false

/-- `v >= 0` for a value already known to be a Number (false otherwise here; the
source only evaluates it to the right of `Number.isInteger(v) &&`). -/
def JSVal.geZero : JSVal → Bool
  | .num n => n.geZero
  | _ => false

/-- The operator `a ?? b`. -/
def JSVal.coalesce (a b : JSVal) : JSVal :=
  match a with
  | .undefined => b
  | .null => b
  | _ => a

/-- The operator `a || b`. -/
def JSVal.or (a b : JSVal) : JSVal :=
  if a.truthy then a else b

/-! ## Strings -/

/-- White space and line terminators, the characters `String.prototype.trim` strips. -/
def isJSWhiteSpace (c : Char) : Bool :=
  let n := c.toNat
  n = 0x09 || n = 0x0A || n = 0x0B || n = 0x0C || n = 0x0D || n = 0x20 || n = 0xA0
    || n = 0x1680 || (0x2000 ≤ n && n ≤ 0x200A) || n = 0x2028 || n = 0x2029
    || n = 0x202F || n = 0x205F || n = 0x3000 || n = 0xFEFF

/-- Modelled from the spec: `String.prototype.trim` is the platform's; white space is
removed from both ends. -/
def jsTrim (s : String) : String :=
  String.mk (((s.data.dropWhile isJSWhiteSpace).reverse.dropWhile isJSWhiteSpace).reverse)

/-- `hay.includes(needle)` as a proposition: needle occurs as a contiguous run. -/
def Contains (hay needle : String) : Prop :=
  needle.data <:+: hay.data

/-! ## Paths (Node's `path` module, POSIX flavour) -/

/-- Split at every `/`; the pieces never contain a `/`. -/
def splitSlash : List Char → List (List Char)
  | [] => [[]]
  | c :: cs =>
    if c = '/' then [] :: splitSlash cs
    else
      match splitSlash cs with
      | [] => [[c]]
      | s :: ss => (c :: s) :: ss

/-- Join segments with single `/` separators. -/
def joinSlash : List (List Char) → List Char
  | [] => []
  | [s] => s
  | s :: t :: ts => s ++ '/' :: joinSlash (t :: ts)

/-- One segment of `normalizeString`, on the stack of kept segments (last kept
segment first): empty and `.` segments are dropped, `..` removes the last kept
segment (or is kept itself when `allowAboveRoot` and nothing can be removed), any
other segment is kept. -/
def normStep (allowAboveRoot : Bool) (res : List (List Char)) (seg : List Char) :
    List (List Char) :=
  if seg = [] ∨ seg = ['.'] then res
  else if seg = ['.', '.'] then
    match res with
    | [] => if allowAboveRoot then [seg] else []
    | last :: rest =>
      if last = ['.', '.'] then (if allowAboveRoot then seg :: last :: rest else last :: rest)
      else rest
  else seg :: res

/-- Modelled from the spec: Node's internal `normalizeString(path, allowAboveRoot, "/")`
is the platform's; the result is given as its list of segments, first segment first. -/
def normalizeString (path : List Char) (allowAboveRoot : Bool) : List (List Char) :=
  ((splitSlash path).foldl (normStep allowAboveRoot) []).reverse

/-- Errors the module can raise while building arguments or normalising a result. -/
inductive Thrown where
  | validation (message : String)
  | invalidArgType
  | enriched (message : String) (code stdout stderr : JSVal)
  deriving DecidableEq, Repr

/-- The right-to-left loop of `path.resolve`: arguments are taken last first (then
the working directory), each must be a string, empty ones are skipped, and the loop
stops at the first absolute one.  Yields the concatenation and whether it is
absolute. -/
def resolveLoop : List JSVal → List Char → Except Thrown (List Char × Bool)
  | [], acc => .ok (acc, false)
  | v :: rest, acc =>
    match v with
    | .str p =>
      if p.data = [] then resolveLoop rest acc
      else if p.data.head? = some '/' then .ok (p.data ++ '/' :: acc, true)
      else resolveLoop rest (p.data ++ '/' :: acc)
    | _ => .error .invalidArgType

/-- Modelled from the spec: `path.resolve(...args)` is Node's (POSIX); `cwd` is what
`process.cwd()` returns.  A non-string argument raises the TypeError
`ERR_INVALID_ARG_TYPE`. -/
def pathResolve (cwd : String) (args : List JSVal) : Except Thrown String :=
  match resolveLoop (args.reverse ++ [.str cwd]) [] with
  | .error e => .error e
  | .ok (p, true) => .ok (String.mk ('/' :: joinSlash (normalizeString p false)))
  | .ok (p, false) =>
    match normalizeString p true with
    | [] => .ok "."
    | s :: ss => .ok (String.mk (joinSlash (s :: ss)))

/-- An absolute path: its first character is `/`. -/
def isAbsolute (p : String) : Prop :=
  p.data.head? = some '/'

/-! ## Options and `buildArgs` -/

/-- The options object `greplyRun` and `buildArgs` receive; an absent property is
`undefined`. -/
structure Opts where
  greplyCmd : JSVal
  query : JSVal
  target : JSVal
  before : JSVal
  after : JSVal
  recursive : JSVal
  wholeWord : JSVal
  matchCase : JSVal
  fixedStrings : JSVal
  noColor : JSVal
  suppressErrors : JSVal
  deriving DecidableEq, Repr

/-- The options object `{}`. -/
def Opts.empty : Opts :=
  ⟨.undefined, .undefined, .undefined, .undefined, .undefined, .undefined, .undefined,
    .undefined, .undefined, .undefined, .undefined⟩

/-- The destructuring default `target = "."`: it applies to `undefined` only. -/
def targetOrDefault (target : JSVal) : JSVal :=
  match target with
  | .undefined => .str "."
  | v => v

/-- The guard of line 45: `!query || typeof query !== "string" || !query.trim()`. -/
def queryInvalid (query : JSVal) : Bool :=
  !query.truthy ||
    (match query with
     | .str q => !(JSVal.str (jsTrim q)).truthy
     | _ => true)

/-- The flag part of the argument vector, lines 49 to 56. -/
def flagArgs (o : Opts) : List String :=
  (if o.before.isInteger && o.before.geZero then ["-B", o.before.toStr] else [])
    ++ (if o.after.isInteger && o.after.geZero then ["-A", o.after.toStr] else [])
    ++ (if o.recursive.truthy then ["-R"] else [])
    ++ (if o.wholeWord.truthy then ["-w"] else [])
    ++ (if o.matchCase.truthy then ["-c"] else [])
    ++ (if o.fixedStrings.truthy then ["-F"] else [])
    ++ (if o.noColor.truthy then ["--no-color"] else [])

/-- The message of the validation error. -/
def validationMessage : String :=
  "query is required and must be a non-empty string"

/-- `buildArgs(opts)` run with working directory `cwd`. -/
def buildArgs (cwd : String) (o : Opts) : Except Thrown (List String) :=
  if queryInvalid o.query then .error (.validation validationMessage)
  else
    match pathResolve cwd [.str cwd, targetOrDefault o.target] with
    | .error e => .error e
    | .ok t => .ok (flagArgs o ++ [o.query.toStr, t])

/-! ## The external process and result normalisation -/

/-- The value a failed `execFileAsync` rejects with (or throws), read through the
four properties the module looks at; `text` is what `String(err)` gives. -/
structure ErrObj where
  message : JSVal
  code : JSVal
  stdout : JSVal
  stderr : JSVal
  text : String
  deriving DecidableEq, Repr

/-- How `await execFileAsync(cmd, args, ...)` ends: it resolves with the two
captured streams (exit status 0), or it rejects with an error object (nonzero exit
status, a signal, a spawn failure, an output overflow, an invalid argument). -/
inductive ExecOutcome where
  | resolved (stdout stderr : JSVal)
  | rejected (err : ErrObj)
  deriving DecidableEq, Repr

/-- What `greplyRun` and `greplyHelp` return; an absent `code` is `undefined`. -/
structure Result where
  stdout : JSVal
  stderr : JSVal
  code : JSVal
  deriving DecidableEq, Repr

/-- The test of line 92:
`err?.code === 1 && (!err.stdout || err.stdout === "") && (!err.stderr || err.stderr === "")`. -/
def isNoMatches (err : ErrObj) : Bool :=
  decide (err.code = .num (.int 1))
    && (!err.stdout.truthy || decide (err.stdout = .str ""))
    && (!err.stderr.truthy || decide (err.stderr = .str ""))

/-- The text `String(err?.message ?? err)`. -/
def failureText (err : ErrObj) : String :=
  (err.message.coalesce (.obj err.text)).toStr

/-- The message of the re-thrown error, lines 103 to 107. -/
def enrichedMessage (err : ErrObj) : String :=
  "greply failed: " ++ failureText err
    ++ (if err.stdout.truthy then "\nSTDOUT:\n" ++ err.stdout.toStr else "")
    ++ (if err.stderr.truthy then "\nSTDERR:\n" ++ err.stderr.toStr else "")

/-- The `try`/`catch` of `greplyRun`, lines 84 to 113, applied to the way the
awaited call ended. -/
def normalizeRun (o : Opts) : ExecOutcome → Except Thrown Result
  | .resolved stdout stderr =>
    .ok ⟨stdout.coalesce (.str ""), stderr.coalesce (.str ""), .undefined⟩
  | .rejected err =>
    if isNoMatches err then .ok ⟨.str "", .str "", .num (.int 1)⟩
    else if o.suppressErrors.truthy then
      .ok ⟨err.stdout.coalesce (.str ""),
        (err.stderr.coalesce (.str "")).or (.str (failureText err)), .undefined⟩
    else .error (.enriched (enrichedMessage err) err.code err.stdout err.stderr)

/-- The `try`/`catch` of `greplyHelp`, lines 123 to 135. -/
def normalizeHelp : ExecOutcome → Result
  | .resolved stdout stderr =>
    ⟨stdout.coalesce (.str ""), stderr.coalesce (.str ""), .undefined⟩
  | .rejected err =>
    ⟨err.stdout.coalesce (.str ""),
      (err.stderr.coalesce (.str "")).or (.str (failureText err)), .undefined⟩

/-! ## File system -/

/-- Error codes of the file-system calls. -/
inductive Errno where
  | ENOENT | EEXIST | EACCES | EPERM | ENOTDIR | EISDIR | EINVAL
  deriving DecidableEq, Repr

/-- The code as the string `err.code` holds. -/
def Errno.name : Errno → String
  | .ENOENT => "ENOENT"
  | .EEXIST => "EEXIST"
  | .EACCES => "EACCES"
  | .EPERM => "EPERM"
  | .ENOTDIR => "ENOTDIR"
  | .EISDIR => "EISDIR"
  | .EINVAL => "ERR_INVALID_ARG_TYPE"

/-- An entry of the file system: a regular file with its bytes and permission bits,
or a directory and whether the process may create entries in it. -/
inductive FSNode where
  | file (bytes : List Nat) (mode : Nat)
  | dir (writable : Bool)
  deriving DecidableEq, Repr

/-- The file-system state: the entry at each absolute, normalised path. -/
abbrev FS := String → Option FSNode

/-- The state with the entry at `p` replaced. -/
def FS.set (fs : FS) (p : String) (n : FSNode) : FS :=
  fun q => if q = p then some n else fs q

/-- The bytes of the regular file at `p`, if there is one. -/
def FS.bytesAt (fs : FS) (p : String) : Option (List Nat) :=
  match fs p with
  | some (.file bytes _) => some bytes
  | _ => none

/-- The key of a path given to a file-system call: the path made absolute against
the working directory and normalised. -/
def canon (cwd p : String) : String :=
  match pathResolve cwd [.str p] with
  | .ok q => q
  | .error _ => p

/-- Modelled from the spec: `fs.existsSync(p)` and the module's `fileExists(p)`
(`fs.promises.access(p, F_OK)` succeeded) are the platform's test that `p` names an
entry. -/
def fileExists (cwd : String) (fs : FS) (p : String) : Bool :=
  (fs (canon cwd p)).isSome

/-- The loop of a recursive `mkdir`: `pre` are the segments already known to be
directories, the others are still to visit. -/
def mkdirLoop (fs : FS) (pre : List (List Char)) : List (List Char) → FS × Option Errno
  | [] => (fs, none)
  | s :: rest =>
    let here := String.mk ('/' :: joinSlash (pre ++ [s]))
    match fs here with
    | some (.dir _) => mkdirLoop fs (pre ++ [s]) rest
    | some (.file _ _) => (fs, some (if rest = [] then .EEXIST else .ENOTDIR))
    | none =>
      match fs (String.mk ('/' :: joinSlash pre)) with
      | some (.dir true) => mkdirLoop (fs.set here (.dir true)) (pre ++ [s]) rest
      | some (.dir false) => (fs, some .EACCES)
      | _ => (fs, some .ENOENT)

/-- Modelled from the spec: `fs.promises.mkdir(p, { recursive: true })` is the
platform's; it creates the missing directories of `p` from the root down and never
touches an existing entry.  A path that is not a string is refused. -/
def mkdirRecursive (cwd : String) (fs : FS) (p : JSVal) : FS × Option Errno :=
  match p with
  | .str d => mkdirLoop fs [] (normalizeString (canon cwd d).data false)
  | _ => (fs, some .EINVAL)

/-- Modelled from the spec: `fs.promises.copyFile(src, dest)` is the platform's; the
bytes of the regular file `src` become the content of `dest`, created in its
(existing, writable) parent directory. -/
def copyFile (cwd : String) (fs : FS) (src dest : String) : Except Errno FS :=
  match fs (canon cwd src) with
  | none => .error .ENOENT
  | some (.dir _) => .error .EISDIR
  | some (.file bytes mode) =>
    let segs := normalizeString (canon cwd dest).data false
    match fs (String.mk ('/' :: joinSlash segs.dropLast)) with
    | none => .error .ENOENT
    | some (.file _ _) => .error .ENOTDIR
    | some (.dir false) => .error .EACCES
    | some (.dir true) =>
      match fs (canon cwd dest) with
      | some (.dir _) => .error .EISDIR
      | some (.file _ oldMode) => .ok (fs.set (canon cwd dest) (.file bytes oldMode))
      | none => .ok (fs.set (canon cwd dest) (.file bytes mode))

/-- Modelled from the spec: `fs.promises.chmod(p, mode)` is the platform's; it sets
the permission bits of the entry at `p`. -/
def chmod (cwd : String) (fs : FS) (p : String) (mode : Nat) : Except Errno FS :=
  match fs (canon cwd p) with
  | none => .error .ENOENT
  | some (.file bytes _) => .ok (fs.set (canon cwd p) (.file bytes mode))
  | some (.dir w) => .ok (fs.set (canon cwd p) (.dir w))

/-! ## The process environment and executable resolution -/

/-- What the module reads from its process: the working directory, the variable
`greply_CMD`, the home directory, and `bundled`, the candidate path of the bundled
script after `decodeURIComponent` (none when decoding raises a URIError). -/
structure Env where
  cwd : String
  greply_CMD : Option String
  homedir : String
  bundled : Option String
  deriving DecidableEq, Repr

/-- Lines 15 to 23 of `resolveDefaultGreplCmd`: the bundled script when it exists,
else the bare command name. -/
def bundledOrBare (env : Env) (fs : FS) : String :=
  match env.bundled with
  | some decoded => if fileExists env.cwd fs decoded then decoded else "greply"
  | none => "greply"

/-- `resolveDefaultGreplCmd()`, evaluated once when the module is loaded. -/
def resolveDefaultGreplCmd (env : Env) (fs : FS) : String :=
  match env.greply_CMD with
  | some envOverride =>
    if (JSVal.str envOverride).truthy && (JSVal.str (jsTrim envOverride)).truthy
    then envOverride
    else bundledOrBare env fs
  | none => bundledOrBare env fs

/-- The executable of a call: `opts.greplyCmd || DEFAULT_greply_CMD` (lines 81 and 122). -/
def greplyCmdOf (env : Env) (fs : FS) (greplyCmd : JSVal) : JSVal :=
  greplyCmd.or (.str (resolveDefaultGreplCmd env fs))

/-- `greplyRun(opts)`: `exec` tells how the awaited call `execFileAsync(cmd, args)`
ends; `fs` is the file system when the module was loaded. -/
def greplyRun (env : Env) (fs : FS) (exec : JSVal → List String → ExecOutcome) (o : Opts) :
    Except Thrown Result :=
  let greplyCmd := greplyCmdOf env fs o.greplyCmd
  match buildArgs env.cwd o with
  | .error e => .error e
  | .ok args => normalizeRun o (exec greplyCmd args)

/-- `greplyHelp(opts)`; of `opts` only `greplyCmd` is read. -/
def greplyHelp (env : Env) (fs : FS) (exec : JSVal → List String → ExecOutcome)
    (greplyCmd : JSVal) : Except Thrown Result :=
  .ok (normalizeHelp (exec (greplyCmdOf env fs greplyCmd) []))

/-! ## The installer -/

/-- Modelled from the spec: `path.normalize(p)` is Node's (POSIX); a trailing `/` is
kept. -/
def pathNormalize (p : List Char) : List Char :=
  if p = [] then ['.']
  else
    let isAbs := decide (p.head? = some '/')
    let trailing := decide (p.getLast? = some '/')
    let body := joinSlash (normalizeString p (!isAbs))
    if body = [] then
      (if isAbs then ['/'] else if trailing then ['.', '/'] else ['.'])
    else (if isAbs then ['/'] else []) ++ body ++ (if trailing then ['/'] else [])

/-- Modelled from the spec: `path.join(...args)` is Node's (POSIX), here on string
arguments: the non-empty ones are joined with `/` and the result is normalised. -/
def pathJoin (args : List String) : String :=
  match (args.map String.data).filter (fun a => decide (a ≠ [])) with
  | [] => "."
  | a :: rest => String.mk (pathNormalize (joinSlash (a :: rest)))

/-- The options object `install` receives. -/
structure InstallOpts where
  destDir : JSVal
  fileName : JSVal
  deriving DecidableEq, Repr

/-- The value `install` resolves with. -/
structure InstallResult where
  installed : Bool
  path : String
  deriving DecidableEq, Repr

/-- The errors `install` rejects with: a TypeError of `path.resolve`, a URIError of
`decodeURIComponent`, an Error the installer makes itself (`code` is "ENOENT" or
"EEXIST"), the permission guidance wrapping a file-system error, or a file-system
error re-thrown as it is. -/
inductive InstallThrown where
  | invalidArgType
  | uriError
  | coded (message : String) (code : String)
  | wrapped (guidance : String) (code : Errno)
  | fsError (code : Errno)
  deriving DecidableEq, Repr

/-- The message of lines 206 to 211. -/
def guidance (destDir : JSVal) (defaultUserBin : String) : String :=
  "Permission denied writing to " ++ destDir.toStr ++ ".\n"
    ++ "Try one of the following:\n"
    ++ "- Use a user-writable directory (default): " ++ defaultUserBin
    ++ " and ensure it's on PATH\n"
    ++ "- Or re-run with elevated permissions for system dirs (e.g. /usr/local/bin)"

/-- The `catch` of lines 204 to 218. -/
def copyFailure (destDir : JSVal) (defaultUserBin : String) (e : Errno) : InstallThrown :=
  if e = .EACCES ∨ e = .EPERM then .wrapped (guidance destDir defaultUserBin) e
  else .fsError e

/-- The error of lines 196 to 198. -/
def destinationExists (destinationPath : String) : InstallThrown :=
  .coded ("Destination exists: " ++ destinationPath ++ ".") "EEXIST"

/-- The error of lines 184 to 186. -/
def bundledMissing : InstallThrown :=
  .coded "Bundled greply.sh not found in this package. Cannot install." "ENOENT"

/-- `install(opts)` on the file system `fs`: the file system it leaves and how the
call ends. -/
def install (env : Env) (fs : FS) (o : InstallOpts) :
    FS × Except InstallThrown InstallResult :=
  let defaultUserBin := pathJoin [env.homedir, ".local", "bin"]
  let destDir := o.destDir.or (.str defaultUserBin)
  let fileName := o.fileName.or (.str "greply")
  match pathResolve env.cwd [destDir, fileName] with
  | .error _ => (fs, .error .invalidArgType)
  | .ok destinationPath =>
    match env.bundled with
    | none => (fs, .error .uriError)
    | some bundledCandidate =>
      if !fileExists env.cwd fs bundledCandidate then (fs, .error bundledMissing)
      else
        let fs1 := (mkdirRecursive env.cwd fs destDir).1
        if fileExists env.cwd fs1 destinationPath then
          (fs1, .error (destinationExists destinationPath))
        else
          match copyFile env.cwd fs1 bundledCandidate destinationPath with
          | .error e => (fs1, .error (copyFailure destDir defaultUserBin e))
          | .ok fs2 =>
            match chmod env.cwd fs2 destinationPath 0o755 with
            | .error e => (fs2, .error (copyFailure destDir defaultUserBin e))
            | .ok fs3 => (fs3, .ok ⟨true, destinationPath⟩)

/-- The destination path of an `install` call, line 180. -/
def destinationPath (env : Env) (o : InstallOpts) : Except Thrown String :=
  pathResolve env.cwd
    [o.destDir.or (.str (pathJoin [env.homedir, ".local", "bin"])), o.fileName.or (.str "greply")]

/-! ## Predicates used in the statements -/

/-- A segment that normalisation keeps as it is. -/
def Plain (s : List Char) : Prop :=
  s ≠ [] ∧ s ≠ ['.'] ∧ s ≠ ['.', '.'] ∧ '/' ∉ s

/-- A string that is empty after trimming white space. -/
def Blank (s : String) : Prop :=
  jsTrim s = ""

instance (s : String) : Decidable (Blank s) := by
  unfold Blank; infer_instance

instance (p : String) : Decidable (isAbsolute p) := by
  unfold isAbsolute; infer_instance

/-! ## The rules in the words of the specification -/

/-- The contribution of a numeric option to the argument vector, as the ordering rule
words it: the flag and `String(v)` when `v` is a non-negative integer, nothing
otherwise. -/
def numericFlag (flag : String) (v : JSVal) : List String :=
  match v with
  | .num (.int i) => if 0 ≤ i then [flag, v.toStr] else []
  | .num (.large negative _) => if negative then [] else [flag, v.toStr]
  | _ => []

/-- The contribution of a boolean option, as the ordering rule words it: the flag when
the option is set, nothing otherwise. -/
def booleanFlag (flag : String) (v : JSVal) : List String :=
  if v.truthy then [flag] else []

/-- The argument vector as the ordering rule words it:
`[-B N] [-A N] [-R] [-w] [-c] [-F] [--no-color] <query> <absolute-target-path>`. -/
def argVectorSpec (o : Opts) (query resolvedTarget : String) : List String :=
  numericFlag "-B" o.before ++ numericFlag "-A" o.after ++ booleanFlag "-R" o.recursive
    ++ booleanFlag "-w" o.wholeWord ++ booleanFlag "-c" o.matchCase
    ++ booleanFlag "-F" o.fixedStrings ++ booleanFlag "--no-color" o.noColor
    ++ [query, resolvedTarget]

/-- The validation rule in its own words: the query is missing, is not a string, or is
a string that is empty after trimming. -/
def QueryRejected (query : JSVal) : Prop :=
  query = .undefined ∨ (∀ s, query ≠ .str s) ∨ (∃ s, query = .str s ∧ Blank s)

/-- A property that is absent or holds a string. -/
def StringOrAbsent (v : JSVal) : Prop :=
  v = .undefined ∨ ∃ s, v = .str s

/-! ## Concrete inputs -/

/-- A process with no override variable and no bundled script. -/
def bareEnv : Env := ⟨"/work", none, "/home/u", none⟩

/-- A process whose variable greply_CMD holds one blank. -/
def blankEnv : Env := ⟨"/work", some " ", "/home/u", none⟩

/-- A process whose package carries the bundled script. -/
def sampleEnv : Env := ⟨"/work", none, "/home/u", some "/pkg/greply.sh"⟩

/-- A small file system: the package directory with the bundled script, and `/home`. -/
def sampleFS : FS := fun p =>
  if p = "/" then some (.dir true)
  else if p = "/pkg" then some (.dir true)
  else if p = "/pkg/greply.sh" then some (.file [35, 33, 47] 0o644)
  else if p = "/home" then some (.dir true)
  else none

/-- The options `{ query: "needle" }`. -/
def sampleOpts : Opts := { Opts.empty with query := .str "needle" }

/-- The options `{ query: "needle", suppressErrors: true }`. -/
def suppressOpts : Opts := { sampleOpts with suppressErrors := .bool true }

/-- The options `{ query: "needle", target: null }`. -/
def nullTargetOpts : Opts := { sampleOpts with target := .null }

/-- The options `{ query: "needle", target: 5 }`. -/
def numTargetOpts : Opts := { sampleOpts with target := .num (.int 5) }

/-- Options that set some flags, leave others out, and give a relative target. -/
def flagOpts : Opts :=
  { sampleOpts with before := .num (.int 2), after := .num (.int (-1)), recursive := .bool true,
                    wholeWord := .bool false, noColor := .bool true, target := .str "src/../lib" }

/-- The options `{ query: "needle", target: "../a//./b/" }`. -/
def relTargetOpts : Opts := { sampleOpts with target := .str "../a//./b/" }

/-- The call `install()`. -/
def defaultInstall : InstallOpts := ⟨.undefined, .undefined⟩

/-- The call `install({ destDir: "/pkg", fileName: "greply.sh" })`. -/
def pkgInstall : InstallOpts := ⟨.str "/pkg", .str "greply.sh"⟩

/-- The message Node gives a command that exited with a nonzero status. -/
def failMessage : String := "Command failed: greply needle /work\n"

/-- The message Node gives a command it could not start. -/
def spawnMessage : String := "spawn greply ENOENT"

/-- A process that fails: the awaited call rejects with this code, message and streams. -/
def exitsWith (code : JSVal) (message stdout stderr : String) :
    JSVal → List String → ExecOutcome :=
  fun _ _ => .rejected ⟨.str message, code, .str stdout, .str stderr, "Error: " ++ message⟩

/-- A process that exits with status 0 and prints the name it was started under. -/
def echoExec : JSVal → List String → ExecOutcome :=
  fun cmd _ => .resolved cmd (.str "")

/-! ## Path lemmas -/

theorem splitSlash_ne_nil (cs : List Char) : splitSlash cs ≠ [] := by
  cases cs with
  | nil => simp [splitSlash]
  | cons c cs =>
    unfold splitSlash
    split
    · simp
    · split <;> simp

theorem splitSlash_noSlash (cs : List Char) : ∀ s ∈ splitSlash cs, '/' ∉ s := by
  induction cs with
  | nil => simp [splitSlash]
  | cons c cs ih =>
    unfold splitSlash
    split
    · intro s hs
      rcases List.mem_cons.mp hs with h | h
      · subst h; simp
      · exact ih s h
    · rename_i hc
      split
      · intro s hs
        simp at hs
        subst hs
        simpa using fun h => hc h.symm
      · rename_i s0 ss heq
        intro s hs
        rcases List.mem_cons.mp hs with h | h
        · subst h
          have := ih s0 (by rw [heq]; simp)
          simp only [List.mem_cons, not_or]
          exact ⟨fun h => hc h.symm, this⟩
        · exact ih s (by rw [heq]; simp [h])

theorem splitSlash_append (s rest : List Char) (hs : '/' ∉ s) :
    splitSlash (s ++ '/' :: rest) = s :: splitSlash rest := by
  induction s with
  | nil => simp [splitSlash]
  | cons c s ih =>
    have hc : c ≠ '/' := fun h => hs (by simp [h])
    have hs2 : '/' ∉ s := fun h => hs (by simp [h])
    have h := ih hs2
    simp only [List.cons_append, splitSlash, hc, if_false]
    rw [show s.append ('/' :: rest) = s ++ '/' :: rest from rfl, h]

theorem splitSlash_join (L : List (List Char)) (rest : List Char)
    (hL : ∀ s ∈ L, '/' ∉ s) (hne : L ≠ []) :
    splitSlash (joinSlash L ++ '/' :: rest) = L ++ splitSlash rest := by
  induction L with
  | nil => exact absurd rfl hne
  | cons s t ih =>
    cases t with
    | nil =>
      simp only [joinSlash]
      rw [splitSlash_append s rest (hL s (by simp))]
      simp
    | cons t ts =>
      simp only [joinSlash, List.append_assoc, List.cons_append]
      rw [splitSlash_append s _ (hL s (by simp))]
      have := ih (fun x hx => hL x (by simp [hx])) (by simp)
      simp only [List.cons_append] at this ⊢
      rw [← this]

theorem normStep_plain (res : List (List Char)) (seg : List Char) (h : Plain seg) :
    normStep false res seg = seg :: res := by
  obtain ⟨h1, h2, h3, _⟩ := h
  simp [normStep, h1, h2, h3]

theorem foldl_normStep_plain (L res : List (List Char)) (hL : ∀ s ∈ L, Plain s) :
    L.foldl (normStep false) res = L.reverse ++ res := by
  induction L generalizing res with
  | nil => simp
  | cons s t ih =>
    simp only [List.foldl_cons, normStep_plain res s (hL s (by simp))]
    rw [ih _ (fun x hx => hL x (by simp [hx]))]
    simp

theorem normStep_keeps_plain (res : List (List Char)) (seg : List Char)
    (hres : ∀ s ∈ res, Plain s) (hseg : '/' ∉ seg) :
    ∀ s ∈ normStep false res seg, Plain s := by
  unfold normStep
  split
  · exact hres
  · rename_i h1
    split
    · split
      · simp
      · rename_i last rest
        split
        · simpa using hres
        · intro s hs
          exact hres s (by simp [hs])
    · rename_i h3
      intro s hs
      rcases List.mem_cons.mp hs with h | h
      · subst h
        simp only [not_or] at h1
        exact ⟨h1.1, h1.2, h3, hseg⟩
      · exact hres s h

theorem foldl_normStep_keeps_plain (L res : List (List Char))
    (hres : ∀ s ∈ res, Plain s) (hL : ∀ s ∈ L, '/' ∉ s) :
    ∀ s ∈ L.foldl (normStep false) res, Plain s := by
  induction L generalizing res with
  | nil => simpa using hres
  | cons s t ih =>
    simp only [List.foldl_cons]
    exact ih _ (normStep_keeps_plain res s hres (hL s (by simp)))
      (fun x hx => hL x (by simp [hx]))

theorem normalizeString_plain (p : List Char) : ∀ s ∈ normalizeString p false, Plain s := by
  intro s hs
  unfold normalizeString at hs
  rw [List.mem_reverse] at hs
  exact foldl_normStep_keeps_plain _ [] (by simp) (splitSlash_noSlash p) s hs

/-- Normalising the rendering of plain segments gives the segments back. -/
theorem normalizeString_render (L : List (List Char)) (hL : ∀ s ∈ L, Plain s) :
    normalizeString ('/' :: (joinSlash L ++ ['/'])) false = L := by
  have hns : ∀ s ∈ L, '/' ∉ s := fun s hs => (hL s hs).2.2.2
  unfold normalizeString
  cases L with
  | nil => simp [joinSlash, splitSlash, normStep]
  | cons a t =>
    have : splitSlash ('/' :: (joinSlash (a :: t) ++ ['/'])) = [] :: ((a :: t) ++ [[]]) := by
      have h := splitSlash_join (a :: t) [] hns (by simp)
      rw [splitSlash, if_pos rfl, h]
      rfl
    rw [this, List.foldl_cons, List.foldl_append]
    have h0 : normStep false [] [] = [] := by simp [normStep]
    rw [h0, foldl_normStep_plain (a :: t) [] hL]
    simp [normStep]

theorem jsTrim_data_ne_nil (s : String) (h : ¬ Blank s) : s.data ≠ [] := by
  intro hs
  apply h
  unfold Blank jsTrim
  rw [hs]
  rfl

theorem queryInvalid_str (q : String) : queryInvalid (.str q) = true ↔ Blank q := by
  unfold queryInvalid JSVal.truthy Blank
  constructor
  · intro h
    simp only [Bool.or_eq_true, Bool.not_eq_true', decide_eq_false_iff_not, not_not] at h
    rcases h with h | h
    · unfold jsTrim; rw [h]; rfl
    · exact String.ext h
  · intro h
    simp only [Bool.or_eq_true, Bool.not_eq_true', decide_eq_false_iff_not, not_not]
    right
    rw [h]

theorem pathResolve_rendered (cwd : String) (L : List (List Char)) (hL : ∀ s ∈ L, Plain s)
    (front : List JSVal) :
    pathResolve cwd (front ++ [.str (String.mk ('/' :: joinSlash L))])
      = .ok (String.mk ('/' :: joinSlash L)) := by
  unfold pathResolve
  simp only [List.reverse_append, List.reverse_cons, List.reverse_nil, List.nil_append,
    List.singleton_append, List.cons_append, resolveLoop]
  simp only [reduceCtorEq, if_false, List.head?_cons, if_true]
  rw [normalizeString_render L hL]

theorem pathResolve_absolute_form (cwd t : String) (hcwd : isAbsolute cwd) :
    ∃ L, (∀ s ∈ L, Plain s) ∧
      pathResolve cwd [.str cwd, .str t] = .ok (String.mk ('/' :: joinSlash L)) := by
  have hne : cwd.data ≠ [] := by
    intro h; unfold isAbsolute at hcwd; rw [h] at hcwd; simp at hcwd
  unfold isAbsolute at hcwd
  unfold pathResolve
  simp only [List.reverse_cons, List.reverse_nil, List.nil_append, List.singleton_append,
    List.cons_append, resolveLoop]
  by_cases h1 : t.data = []
  · simp only [h1, if_true, hne, if_false, hcwd]
    exact ⟨_, normalizeString_plain _, rfl⟩
  · by_cases h2 : t.data.head? = some '/'
    · simp only [h1, if_false, h2, if_true]
      exact ⟨_, normalizeString_plain _, rfl⟩
    · simp only [h1, if_false, h2, hne, hcwd, if_true]
      exact ⟨_, normalizeString_plain _, rfl⟩

/-- C10: for a target that is a string or omitted, and an absolute working directory,
the last element of the vector `buildArgs` returns is an absolute path, and resolving
it again against the same working directory gives it back. -/
theorem buildArgs_target_absolute_idempotent (cwd : String) (o : Opts) (q : String)
    (hcwd : isAbsolute cwd) (hq : o.query = .str q) (hvalid : ¬ Blank q)
    (ht : o.target = .undefined ∨ ∃ t, o.target = .str t) :
    ∃ args p, buildArgs cwd o = .ok args ∧ args.getLast? = some p ∧ isAbsolute p
      ∧ pathResolve cwd [.str cwd, .str p] = .ok p := by
  have hqi : queryInvalid o.query = false := by
    rw [hq]
    cases h : queryInvalid (.str q) with
    | false => rfl
    | true => exact absurd ((queryInvalid_str q).mp h) hvalid
  obtain ⟨t, ht2⟩ : ∃ t, targetOrDefault o.target = .str t := by
    rcases ht with h | ⟨t, h⟩
    · exact ⟨".", by rw [h]; rfl⟩
    · exact ⟨t, by rw [h]; rfl⟩
  obtain ⟨L, hL, hres⟩ := pathResolve_absolute_form cwd t hcwd
  refine ⟨flagArgs o ++ [o.query.toStr, String.mk ('/' :: joinSlash L)],
    String.mk ('/' :: joinSlash L), ?_, ?_, ?_, ?_⟩
  · unfold buildArgs
    rw [hqi, ht2, hres]
    rfl
  · simp
  · simp [isAbsolute]
  · exact pathResolve_rendered cwd L hL [.str cwd]

theorem buildArgs_target_absolute_idempotent_witness :
    ∃ args p, buildArgs "/work/dir" relTargetOpts = .ok args
      ∧ args.getLast? = some p ∧ isAbsolute p
      ∧ pathResolve "/work/dir" [.str "/work/dir", .str p] = .ok p :=
  buildArgs_target_absolute_idempotent "/work/dir" relTargetOpts "needle" (by decide) rfl
    (by decide) (Or.inr ⟨_, rfl⟩)

/-! ## The installer leaves existing entries alone -/

theorem FS.set_isSome (fs : FS) (q p : String) (m : FSNode) (h : (fs p).isSome = true) :
    ((fs.set q m) p).isSome = true := by
  unfold FS.set
  split
  · rfl
  · exact h

theorem FS.set_self_isSome (fs : FS) (q : String) (m : FSNode) :
    ((fs.set q m) q).isSome = true := by
  simp [FS.set]

theorem mkdirLoop_frame (todo : List (List Char)) :
    ∀ (fs : FS) (pre : List (List Char)) (p : String) (n : FSNode),
      fs p = some n → (mkdirLoop fs pre todo).1 p = some n := by
  induction todo with
  | nil => intro fs pre p n h; simpa [mkdirLoop] using h
  | cons s rest ih =>
    intro fs pre p n h
    unfold mkdirLoop
    simp only
    split
    · exact ih fs _ p n h
    · exact h
    · rename_i hnone
      split
      · apply ih
        unfold FS.set
        have hp : p ≠ String.mk ('/' :: joinSlash (pre ++ [s])) := by
          intro e; rw [e, hnone] at h; cases h
        rw [if_neg hp]
        exact h
      · exact h
      · exact h

theorem mkdirRecursive_frame (cwd : String) (fs : FS) (d : JSVal) (p : String) (n : FSNode)
    (h : fs p = some n) : (mkdirRecursive cwd fs d).1 p = some n := by
  unfold mkdirRecursive
  split
  · exact mkdirLoop_frame _ fs [] p n h
  · exact h

theorem fileExists_mkdirRecursive (cwd : String) (fs : FS) (d : JSVal) (p : String)
    (h : fileExists cwd fs p = true) : fileExists cwd (mkdirRecursive cwd fs d).1 p = true := by
  unfold fileExists at h ⊢
  cases hn : fs (canon cwd p) with
  | none => rw [hn] at h; cases h
  | some n => rw [mkdirRecursive_frame cwd fs d _ n hn]; rfl

/-- With the bundled script present and the destination already there, `install`
rejects with the already-exists error and leaves every existing entry as it was. -/
theorem install_exists (env : Env) (fs : FS) (o : InstallOpts) (b dest : String)
    (hb : env.bundled = some b) (hbe : fileExists env.cwd fs b = true)
    (hd : destinationPath env o = .ok dest) (hde : fileExists env.cwd fs dest = true) :
    (install env fs o).2 = .error (destinationExists dest)
      ∧ ∀ p n, fs p = some n → (install env fs o).1 p = some n := by
  unfold destinationPath at hd
  unfold install
  simp only [hd, hb, hbe, Bool.not_true, Bool.false_eq_true, if_false,
    fileExists_mkdirRecursive env.cwd fs _ dest hde, if_true]
  exact ⟨trivial, fun p n h => mkdirRecursive_frame _ _ _ p n h⟩

theorem copyFile_ok (cwd : String) (fs fs2 : FS) (src dest : String)
    (h : copyFile cwd fs src dest = .ok fs2) :
    ∃ bytes mode m2, fs (canon cwd src) = some (.file bytes mode)
      ∧ fs2 = fs.set (canon cwd dest) (.file bytes m2) := by
  unfold copyFile at h
  split at h
  · cases h
  · cases h
  · rename_i bytes mode hsrc
    simp only at h
    split at h
    · cases h
    · cases h
    · cases h
    · split at h
      · cases h
      · rename_i oldMode _
        exact ⟨bytes, mode, oldMode, hsrc, by injection h with h; exact h.symm⟩
      · exact ⟨bytes, mode, mode, hsrc, by injection h with h; exact h.symm⟩

theorem chmod_ok_file (cwd : String) (fs fs3 : FS) (p : String) (mode m : Nat)
    (bytes : List Nat) (hp : fs (canon cwd p) = some (.file bytes m))
    (h : chmod cwd fs p mode = .ok fs3) :
    fs3 = fs.set (canon cwd p) (.file bytes mode) := by
  unfold chmod at h
  rw [hp] at h
  simp only at h
  injection h with h
  exact h.symm

/-- What a successful `install` leaves behind. -/
theorem install_ok_inv (env : Env) (fs : FS) (o : InstallOpts) (r : InstallResult)
    (h : (install env fs o).2 = .ok r) :
    ∃ b bytes, env.bundled = some b ∧ destinationPath env o = .ok r.path
      ∧ fileExists env.cwd (install env fs o).1 b = true
      ∧ fileExists env.cwd (install env fs o).1 r.path = true
      ∧ fs.bytesAt (canon env.cwd b) = some bytes
      ∧ (install env fs o).1 (canon env.cwd r.path) = some (.file bytes 0o755) := by
  unfold destinationPath
  unfold install at h ⊢
  simp only at h ⊢
  split at h
  · cases h
  · rename_i dest hdest
    simp only [hdest]
    split at h
    · cases h
    · rename_i b hb
      split at h
      · cases h
      · rename_i hbe
        simp only [hbe]
        split at h
        · cases h
        · rename_i hde
          simp only [hde]
          split at h
          · cases h
          · rename_i fs2 hcopy
            split at h
            · cases h
            · rename_i fs3 hch
              simp only [Bool.false_eq_true, if_false]
              simp only [Except.ok.injEq] at h
              subst h
              simp only
              obtain ⟨bytes, mode, m2, hsrc, hfs2⟩ := copyFile_ok _ _ _ _ _ hcopy
              have hfs3 := chmod_ok_file env.cwd fs2 fs3 dest 0o755 m2 bytes
                (by rw [hfs2]; simp [FS.set]) hch
              have hbe2 : fileExists env.cwd fs b = true := by simpa using hbe
              refine ⟨b, bytes, hb, trivial, ?_, ?_, ?_, ?_⟩
              · rw [hfs3, hfs2]
                unfold fileExists
                apply FS.set_isSome
                apply FS.set_isSome
                rw [hsrc]; rfl
              · rw [hfs3]
                unfold fileExists
                exact FS.set_self_isSome _ _ _
              · unfold fileExists at hbe2
                cases hn : fs (canon env.cwd b) with
                | none => rw [hn] at hbe2; cases hbe2
                | some n =>
                  have := mkdirRecursive_frame env.cwd fs
                    (o.destDir.or (JSVal.str (pathJoin [env.homedir, ".local", "bin"]))) _ n hn
                  rw [hsrc] at this
                  injection this with this
                  subst this
                  simp [FS.bytesAt, hn]
              · rw [hfs3]
                simp [FS.set]

/-- C7: over a file system in which the bundled script exists, `install` with an
existing destination path rejects with the already-exists error (code EEXIST) and the
bytes at the destination are unchanged; and after an `install` that succeeded, a second
one with the same options rejects this way and leaves the installed bytes, those of the
bundled script, unchanged. -/
theorem install_never_overwrites (env : Env) (o : InstallOpts) :
    (∀ (fs : FS) (b dest : String), env.bundled = some b → fileExists env.cwd fs b = true →
        destinationPath env o = .ok dest → fileExists env.cwd fs dest = true →
        (install env fs o).2 = .error (destinationExists dest)
          ∧ destinationExists dest = .coded ("Destination exists: " ++ dest ++ ".") "EEXIST"
          ∧ (install env fs o).1.bytesAt (canon env.cwd dest) = fs.bytesAt (canon env.cwd dest))
    ∧ (∀ (fs : FS) (r : InstallResult), (install env fs o).2 = .ok r →
        ∃ b bytes, env.bundled = some b ∧ fs.bytesAt (canon env.cwd b) = some bytes
          ∧ (install env fs o).1.bytesAt (canon env.cwd r.path) = some bytes
          ∧ (install env (install env fs o).1 o).2 = .error (destinationExists r.path)
          ∧ (install env (install env fs o).1 o).1.bytesAt (canon env.cwd r.path)
              = some bytes) := by
  have part1 : ∀ (fs : FS) (b dest : String), env.bundled = some b →
      fileExists env.cwd fs b = true → destinationPath env o = .ok dest →
      fileExists env.cwd fs dest = true →
      (install env fs o).2 = .error (destinationExists dest)
        ∧ (install env fs o).1.bytesAt (canon env.cwd dest)
            = fs.bytesAt (canon env.cwd dest) := by
    intro fs b dest hb hbe hd hde
    obtain ⟨h1, h2⟩ := install_exists env fs o b dest hb hbe hd hde
    refine ⟨h1, ?_⟩
    unfold fileExists at hde
    cases hn : fs (canon env.cwd dest) with
    | none => rw [hn] at hde; cases hde
    | some n => simp only [FS.bytesAt, h2 _ n hn, hn]
  refine ⟨fun fs b dest hb hbe hd hde => ?_, fun fs r h => ?_⟩
  · obtain ⟨h1, h2⟩ := part1 fs b dest hb hbe hd hde
    exact ⟨h1, rfl, h2⟩
  · obtain ⟨b, bytes, hb, hd, hbe, hde, hsrc, hdst⟩ := install_ok_inv env fs o r h
    obtain ⟨h1, h2⟩ := part1 (install env fs o).1 b r.path hb hbe hd hde
    have hbytes : (install env fs o).1.bytesAt (canon env.cwd r.path) = some bytes := by
      simp only [FS.bytesAt, hdst]
    exact ⟨b, bytes, hb, hsrc, hbytes, h1, by rw [h2, hbytes]⟩

/-! ## Result normalisation -/

theorem Contains.nil (hay : String) : Contains hay "" :=
  List.nil_infix

theorem Contains.of_data_nil (hay needle : String) (h : needle.data = []) :
    Contains hay needle := by
  unfold Contains; rw [h]; exact List.nil_infix

theorem Contains.append_left (x hay needle : String) (h : Contains hay needle) :
    Contains (x ++ hay) needle := by
  obtain ⟨p, q, e⟩ := h
  exact ⟨x.data ++ p, q, by simp [String.data_append, ← e]⟩

theorem Contains.append_right (x hay needle : String) (h : Contains hay needle) :
    Contains (hay ++ x) needle := by
  obtain ⟨p, q, e⟩ := h
  exact ⟨p, q ++ x.data, by simp [String.data_append, ← e]⟩

theorem Contains.refl (s : String) : Contains s s :=
  List.infix_refl _

theorem Contains.optional (label v : String) :
    Contains (if (JSVal.str v).truthy then label ++ (JSVal.str v).toStr else "") v := by
  by_cases h : v.data = []
  · exact Contains.of_data_nil _ _ h
  · simp only [JSVal.truthy, h, ne_eq, not_false_eq_true, decide_True, if_true, JSVal.toStr]
    exact Contains.append_left _ _ _ (Contains.refl v)

theorem str_eq_empty_iff (s : String) : JSVal.str s = JSVal.str "" ↔ s.data = [] := by
  constructor
  · intro h; injection h with h; rw [h]
  · intro h; rw [show s = "" from String.ext h]

theorem isNoMatches_exit (err : ErrObj) (n : Int) (so se : String)
    (hcode : err.code = .num (.int n)) (hout : err.stdout = .str so)
    (herr : err.stderr = .str se) :
    isNoMatches err = true ↔ n = 1 ∧ so = "" ∧ se = "" := by
  unfold isNoMatches
  rw [hcode, hout, herr]
  simp only [JSVal.truthy, Bool.and_eq_true, Bool.or_eq_true, Bool.not_eq_true',
    decide_eq_false_iff_not, decide_eq_true_eq, not_not, JSVal.num.injEq, JSNum.int.injEq,
    str_eq_empty_iff, or_self]
  constructor
  · rintro ⟨⟨h1, h2⟩, h3⟩
    exact ⟨h1, String.ext h2, String.ext h3⟩
  · rintro ⟨h1, h2, h3⟩
    subst h1 h2 h3
    exact ⟨⟨rfl, rfl⟩, rfl⟩

/-- C1: when the process that `greplyRun` started with the built argument vector ends
with exit code 1 and both captured streams empty, `greplyRun` returns, whatever
`suppressErrors` is, the result with stdout "", stderr "" and code 1. -/
theorem greplyRun_noMatches (env : Env) (fs : FS) (exec : JSVal → List String → ExecOutcome)
    (o : Opts) (args : List String) (err : ErrObj)
    (hargs : buildArgs env.cwd o = .ok args)
    (hexec : exec (greplyCmdOf env fs o.greplyCmd) args = .rejected err)
    (hcode : err.code = .num (.int 1)) (hout : err.stdout = .str "")
    (herr : err.stderr = .str "") :
    greplyRun env fs exec o = .ok ⟨.str "", .str "", .num (.int 1)⟩ := by
  unfold greplyRun
  simp only [hargs, hexec, normalizeRun,
    (isNoMatches_exit err 1 "" "" hcode hout herr).mpr ⟨rfl, rfl, rfl⟩, if_true]

/-- C3: with `suppressErrors` false or absent, a failed invocation that is not the
no-matches case makes `greplyRun` throw an error whose code is the exit code, whose
stdout and stderr are the captured ones, and whose message contains the failure
message, the captured stdout and the captured stderr. -/
theorem greplyRun_failure_throws (env : Env) (fs : FS)
    (exec : JSVal → List String → ExecOutcome) (o : Opts) (args : List String)
    (err : ErrObj) (n : Int) (m so se : String)
    (hsup : o.suppressErrors = .undefined ∨ o.suppressErrors = .bool false)
    (hargs : buildArgs env.cwd o = .ok args)
    (hexec : exec (greplyCmdOf env fs o.greplyCmd) args = .rejected err)
    (hmsg : err.message = .str m) (hcode : err.code = .num (.int n))
    (hout : err.stdout = .str so) (herr : err.stderr = .str se)
    (hfail : (n ≠ 0 ∧ n ≠ 1) ∨ (n = 1 ∧ (so ≠ "" ∨ se ≠ ""))) :
    ∃ msg, greplyRun env fs exec o = .error (.enriched msg (.num (.int n)) (.str so) (.str se))
      ∧ Contains msg m ∧ Contains msg so ∧ Contains msg se := by
  have hno : isNoMatches err = false := by
    cases h : isNoMatches err with
    | false => rfl
    | true =>
      obtain ⟨h1, h2, h3⟩ := (isNoMatches_exit err n so se hcode hout herr).mp h
      rcases hfail with ⟨_, h⟩ | ⟨_, h | h⟩
      · exact absurd h1 h
      · exact absurd h2 h
      · exact absurd h3 h
  have hs : o.suppressErrors.truthy = false := by
    rcases hsup with h | h <;> rw [h] <;> rfl
  refine ⟨enrichedMessage err, ?_, ?_, ?_, ?_⟩
  · unfold greplyRun
    simp only [hargs, hexec, normalizeRun, hno, hs, Bool.false_eq_true, if_false, hcode, hout,
      herr]
  · unfold enrichedMessage failureText
    rw [hmsg]
    exact Contains.append_right _ _ _ (Contains.append_right _ _ _
      (Contains.append_left _ _ _ (Contains.refl m)))
  · unfold enrichedMessage
    rw [hout]
    exact Contains.append_right _ _ _ (Contains.append_left _ _ _ (Contains.optional _ so))
  · unfold enrichedMessage
    rw [herr]
    exact Contains.append_left _ _ _ (Contains.optional _ se)

/-- C4, amended: with `suppressErrors` true, a failed invocation that is not the
no-matches case makes `greplyRun` return a result whose stdout is the captured stdout
and whose stderr is the captured stderr when that is not empty, and the failure
message when the captured stderr is empty. -/
theorem greplyRun_failure_suppressed (env : Env) (fs : FS)
    (exec : JSVal → List String → ExecOutcome) (o : Opts) (args : List String)
    (err : ErrObj) (n : Int) (m so se : String)
    (hsup : o.suppressErrors = .bool true)
    (hargs : buildArgs env.cwd o = .ok args)
    (hexec : exec (greplyCmdOf env fs o.greplyCmd) args = .rejected err)
    (hmsg : err.message = .str m) (hcode : err.code = .num (.int n))
    (hout : err.stdout = .str so) (herr : err.stderr = .str se)
    (hfail : (n ≠ 0 ∧ n ≠ 1) ∨ (n = 1 ∧ (so ≠ "" ∨ se ≠ ""))) :
    greplyRun env fs exec o
      = .ok ⟨.str so, if se = "" then .str m else .str se, .undefined⟩ := by
  have hno : isNoMatches err = false := by
    cases h : isNoMatches err with
    | false => rfl
    | true =>
      obtain ⟨h1, h2, h3⟩ := (isNoMatches_exit err n so se hcode hout herr).mp h
      rcases hfail with ⟨_, h⟩ | ⟨_, h | h⟩
      · exact absurd h1 h
      · exact absurd h2 h
      · exact absurd h3 h
  unfold greplyRun
  simp only [hargs, hexec, normalizeRun, hno, hsup, JSVal.truthy, Bool.false_eq_true, if_false,
    if_true, hout, herr, hmsg, JSVal.coalesce, JSVal.or, failureText, JSVal.toStr]
  by_cases h : se = ""
  · subst h
    simp
  · have : se.data ≠ [] := fun e => h (String.ext e)
    simp [h, this]

/-! ## The argument vector and validation -/

theorem numericFlag_eq (flag : String) (v : JSVal) :
    numericFlag flag v = if v.isInteger && v.geZero then [flag, v.toStr] else [] := by
  unfold numericFlag
  split
  · rename_i i
    by_cases h : 0 ≤ i <;> simp [JSVal.isInteger, JSNum.isInteger, JSVal.geZero, JSNum.geZero, h]
  · rename_i negative text
    cases negative <;> simp [JSVal.isInteger, JSNum.isInteger, JSVal.geZero, JSNum.geZero]
  · rename_i h1 h2
    cases v with
    | num n =>
      cases n with
      | int i => exact absurd rfl (h1 i)
      | large negative text => exact absurd rfl (h2 negative text)
      | _ => simp [JSVal.isInteger, JSNum.isInteger]
    | _ => simp [JSVal.isInteger]

theorem flagArgs_eq (o : Opts) (q t : String) :
    flagArgs o ++ [q, t] = argVectorSpec o q t := by
  unfold flagArgs argVectorSpec booleanFlag
  simp only [numericFlag_eq]

theorem resolveLoop_strings (l : List JSVal) (hl : ∀ v ∈ l, ∃ s, v = .str s) :
    ∀ acc, ∃ r, resolveLoop l acc = .ok r := by
  induction l with
  | nil => intro acc; exact ⟨_, rfl⟩
  | cons v rest ih =>
    intro acc
    obtain ⟨s, hs⟩ := hl v (by simp)
    subst hs
    have ih2 := ih (fun x hx => hl x (by simp [hx]))
    unfold resolveLoop
    simp only
    split
    · exact ih2 _
    · split
      · exact ⟨_, rfl⟩
      · exact ih2 _

theorem pathResolve_strings (cwd a b : String) :
    ∃ r, pathResolve cwd [.str a, .str b] = .ok r := by
  unfold pathResolve
  obtain ⟨⟨p, abs⟩, hr⟩ := resolveLoop_strings ([JSVal.str a, .str b].reverse ++ [.str cwd])
    (by intro v hv; simp at hv; rcases hv with h | h | h <;> exact ⟨_, h⟩) []
  rw [hr]
  cases abs with
  | true => exact ⟨_, rfl⟩
  | false =>
    simp only
    split <;> exact ⟨_, rfl⟩

theorem queryInvalid_iff (query : JSVal) : queryInvalid query = true ↔ QueryRejected query := by
  cases query with
  | str q =>
    rw [queryInvalid_str]
    unfold QueryRejected
    constructor
    · intro h; exact Or.inr (Or.inr ⟨q, rfl, h⟩)
    · rintro (h | h | ⟨s, h, hb⟩)
      · cases h
      · exact absurd rfl (h q)
      · injection h with h; rw [h]; exact hb
  | undefined => simp [queryInvalid, JSVal.truthy, QueryRejected]
  | null => simp [queryInvalid, JSVal.truthy, QueryRejected]
  | bool b => simp [queryInvalid, QueryRejected]
  | num n => simp [queryInvalid, QueryRejected]
  | obj t => simp [queryInvalid, QueryRejected]

theorem pathResolve_nonString (cwd : String) (front : List JSVal) (v : JSVal)
    (hv : ¬ ∃ s, v = .str s) : pathResolve cwd (front ++ [v]) = .error .invalidArgType := by
  unfold pathResolve
  simp only [List.reverse_append, List.reverse_cons, List.reverse_nil, List.nil_append,
    List.singleton_append, List.cons_append]
  unfold resolveLoop
  cases v with
  | str s => exact absurd ⟨s, rfl⟩ hv
  | _ => rfl

theorem targetOrDefault_string (target : JSVal) :
    (∃ t, targetOrDefault target = .str t) ↔ StringOrAbsent target := by
  unfold StringOrAbsent
  cases target <;> simp [targetOrDefault]

/-- C2, amended: for every options value with a valid query and a target that is
absent or a string, `buildArgs` returns exactly the flags in the order
-B, -A, -R, -w, -c, -F, --no-color, each present only when its option asks for it,
then the query, then the resolved target. -/
theorem buildArgs_vector (cwd : String) (o : Opts) (q : String)
    (hq : o.query = .str q) (hvalid : ¬ Blank q) (ht : StringOrAbsent o.target) :
    ∃ t, pathResolve cwd [.str cwd, targetOrDefault o.target] = .ok t
      ∧ buildArgs cwd o = .ok (argVectorSpec o q t) := by
  obtain ⟨t0, ht0⟩ := (targetOrDefault_string o.target).mpr ht
  obtain ⟨t, hres⟩ := pathResolve_strings cwd cwd t0
  refine ⟨t, by rw [ht0, hres], ?_⟩
  have hqi : queryInvalid o.query = false := by
    rw [hq]
    cases h : queryInvalid (.str q) with
    | false => rfl
    | true => exact absurd ((queryInvalid_str q).mp h) hvalid
  unfold buildArgs
  rw [hqi, ht0, hres, hq]
  simp only [Bool.false_eq_true, if_false, JSVal.toStr, flagArgs_eq]

/-- C6, amended: `buildArgs` throws its validation error exactly when the query is
missing, not a string, or empty after trimming; otherwise it returns an argument
vector when the target is absent or a string, and raises the TypeError of
`path.resolve` when the target is anything else. -/
theorem buildArgs_validation (cwd : String) (o : Opts) :
    ((∃ m, buildArgs cwd o = .error (.validation m)) ↔ QueryRejected o.query)
      ∧ (QueryRejected o.query → buildArgs cwd o = .error (.validation validationMessage))
      ∧ (¬ QueryRejected o.query → StringOrAbsent o.target →
          ∃ args, buildArgs cwd o = .ok args)
      ∧ (¬ QueryRejected o.query → ¬ StringOrAbsent o.target →
          buildArgs cwd o = .error .invalidArgType) := by
  have hbad : QueryRejected o.query → buildArgs cwd o = .error (.validation validationMessage) := by
    intro h
    unfold buildArgs
    rw [(queryInvalid_iff o.query).mpr h]
    rfl
  have hgood : ¬ QueryRejected o.query → queryInvalid o.query = false := by
    intro h
    cases hqi : queryInvalid o.query with
    | false => rfl
    | true => exact absurd ((queryInvalid_iff o.query).mp hqi) h
  have hnostr : ¬ QueryRejected o.query → ¬ StringOrAbsent o.target →
      buildArgs cwd o = .error .invalidArgType := by
    intro h ht
    have hv : ¬ ∃ s, targetOrDefault o.target = .str s :=
      fun hs => ht ((targetOrDefault_string o.target).mp hs)
    unfold buildArgs
    rw [hgood h, show [JSVal.str cwd, targetOrDefault o.target]
      = [JSVal.str cwd] ++ [targetOrDefault o.target] from rfl,
      pathResolve_nonString cwd _ _ hv]
    rfl
  have hstr : ¬ QueryRejected o.query → StringOrAbsent o.target →
      ∃ args, buildArgs cwd o = .ok args := by
    intro h ht
    obtain ⟨t0, ht0⟩ := (targetOrDefault_string o.target).mpr ht
    obtain ⟨t, hres⟩ := pathResolve_strings cwd cwd t0
    unfold buildArgs
    rw [hgood h, ht0, hres]
    exact ⟨_, rfl⟩
  refine ⟨⟨?_, fun h => ⟨_, hbad h⟩⟩, hbad, hstr, hnostr⟩
  rintro ⟨m, hm⟩
  by_contra h
  by_cases ht : StringOrAbsent o.target
  · obtain ⟨args, ha⟩ := hstr h ht
    rw [ha] at hm
    cases hm
  · rw [hnostr h ht] at hm
    cases hm

/-! ## Executable resolution, help, spawn failures -/

theorem truthy_of_not_blank (e : String) (h : ¬ Blank e) :
    (JSVal.str e).truthy = true ∧ (JSVal.str (jsTrim e)).truthy = true := by
  refine ⟨?_, ?_⟩
  · simpa [JSVal.truthy] using jsTrim_data_ne_nil e h
  · simp only [JSVal.truthy, ne_eq, decide_eq_true_eq]
    exact fun hd => h (String.ext hd)

theorem truthy_of_blank (e : String) (h : Blank e) : (JSVal.str (jsTrim e)).truthy = false := by
  unfold Blank at h
  rw [h]
  rfl

theorem resolveDefault_env (env : Env) (fs : FS) (e : String) (he : env.greply_CMD = some e)
    (hb : ¬ Blank e) : resolveDefaultGreplCmd env fs = e := by
  unfold resolveDefaultGreplCmd
  rw [he]
  simp only [(truthy_of_not_blank e hb).1, (truthy_of_not_blank e hb).2, Bool.and_self, if_true]

theorem resolveDefault_noEnv (env : Env) (fs : FS)
    (he : env.greply_CMD = none ∨ ∃ e, env.greply_CMD = some e ∧ Blank e) :
    resolveDefaultGreplCmd env fs = bundledOrBare env fs := by
  unfold resolveDefaultGreplCmd
  rcases he with h | ⟨e, h, hb⟩
  · rw [h]
  · rw [h]
    simp only [truthy_of_blank e hb, Bool.and_false, Bool.false_eq_true, if_false]

/-- C8, amended: `greplyRun` and `greplyHelp` invoke the per-call override when it is
truthy (given and not the empty string); otherwise the variable greply_CMD when it is
not blank (not empty after trimming white space); otherwise the bundled script path
when that file exists; otherwise the bare name "greply". -/
theorem executable_priority (env : Env) (fs : FS) (override : JSVal) :
    (∀ exec (o : Opts) args, o.greplyCmd = override → buildArgs env.cwd o = .ok args →
        greplyRun env fs exec o = normalizeRun o (exec (greplyCmdOf env fs override) args))
      ∧ (∀ exec, greplyHelp env fs exec override
          = .ok (normalizeHelp (exec (greplyCmdOf env fs override) [])))
      ∧ (override.truthy = true → greplyCmdOf env fs override = override)
      ∧ (override.truthy = false → ∀ e, env.greply_CMD = some e → ¬ Blank e →
          greplyCmdOf env fs override = .str e)
      ∧ (override.truthy = false →
          (env.greply_CMD = none ∨ ∃ e, env.greply_CMD = some e ∧ Blank e) →
          ∀ b, env.bundled = some b → fileExists env.cwd fs b = true →
          greplyCmdOf env fs override = .str b)
      ∧ (override.truthy = false →
          (env.greply_CMD = none ∨ ∃ e, env.greply_CMD = some e ∧ Blank e) →
          (env.bundled = none ∨ ∃ b, env.bundled = some b ∧ fileExists env.cwd fs b = false) →
          greplyCmdOf env fs override = .str "greply") := by
  refine ⟨?_, ?_, ?_, ?_, ?_, ?_⟩
  · intro exec o args ho ha
    unfold greplyRun
    simp only [ho, ha]
  · intro exec
    rfl
  · intro h
    simp [greplyCmdOf, JSVal.or, h]
  · intro h e he hb
    simp [greplyCmdOf, JSVal.or, h, resolveDefault_env env fs e he hb]
  · intro h he b hb hex
    simp [greplyCmdOf, JSVal.or, h, resolveDefault_noEnv env fs he, bundledOrBare, hb, hex]
  · intro h he hb
    rcases hb with hb | ⟨b, hb, hex⟩
    · simp [greplyCmdOf, JSVal.or, h, resolveDefault_noEnv env fs he, bundledOrBare, hb]
    · simp [greplyCmdOf, JSVal.or, h, resolveDefault_noEnv env fs he, bundledOrBare, hb, hex]

/-- C9: however the process ends, `greplyHelp` returns a result, and its stdout is the
captured stdout. -/
theorem greplyHelp_returns (env : Env) (fs : FS) (exec : JSVal → List String → ExecOutcome)
    (greplyCmd : JSVal) :
    ∃ r, greplyHelp env fs exec greplyCmd = .ok r
      ∧ (∀ so se, exec (greplyCmdOf env fs greplyCmd) [] = .resolved (.str so) (.str se) →
          r.stdout = .str so)
      ∧ (∀ err so, exec (greplyCmdOf env fs greplyCmd) [] = .rejected err →
          err.stdout = .str so → r.stdout = .str so) := by
  refine ⟨_, rfl, ?_, ?_⟩
  · intro so se h
    rw [h]
    rfl
  · intro err so h hso
    rw [h]
    simp only [normalizeHelp, hso, JSVal.coalesce]

/-- C5, amended: when the executable could not be started (the error carries no exit
status and both streams are empty), `greplyRun` throws when `suppressErrors` is false or
absent, and returns a result whose stderr is the failure message when `suppressErrors`
is true. -/
theorem greplyRun_spawnError (env : Env) (fs : FS) (exec : JSVal → List String → ExecOutcome)
    (o : Opts) (args : List String) (err : ErrObj) (m : String)
    (hargs : buildArgs env.cwd o = .ok args)
    (hexec : exec (greplyCmdOf env fs o.greplyCmd) args = .rejected err)
    (hmsg : err.message = .str m) (hcode : ∀ n, err.code ≠ .num n)
    (hout : err.stdout = .str "") (herr : err.stderr = .str "") :
    ((o.suppressErrors = .undefined ∨ o.suppressErrors = .bool false) →
        greplyRun env fs exec o
          = .error (.enriched ("greply failed: " ++ m) err.code (.str "") (.str "")))
      ∧ (o.suppressErrors = .bool true →
          greplyRun env fs exec o = .ok ⟨.str "", .str m, .undefined⟩) := by
  have hno : isNoMatches err = false := by
    unfold isNoMatches
    simp [hcode]
  refine ⟨fun hsup => ?_, fun hsup => ?_⟩
  · have hs : o.suppressErrors.truthy = false := by
      rcases hsup with h | h <;> rw [h] <;> rfl
    unfold greplyRun
    simp only [hargs, hexec, normalizeRun, hno, hs, Bool.false_eq_true, if_false, hout, herr,
      enrichedMessage, failureText, hmsg, JSVal.coalesce, JSVal.toStr]
    have ht : (JSVal.str "").truthy = false := rfl
    simp only [ht, Bool.false_eq_true, if_false, String.append_empty]
  · unfold greplyRun
    simp only [hargs, hexec, normalizeRun, hno, hsup, JSVal.truthy, Bool.false_eq_true,
      if_false, if_true, hout, herr, hmsg, JSVal.coalesce, JSVal.or, failureText, JSVal.toStr]
    rfl

/-! ## The statements at concrete inputs -/

theorem greplyRun_noMatches_witness :
    greplyRun bareEnv sampleFS (exitsWith (.num (.int 1)) failMessage "" "") suppressOpts
      = .ok ⟨.str "", .str "", .num (.int 1)⟩ :=
  greplyRun_noMatches bareEnv sampleFS _ suppressOpts ["needle", "/work"]
    ⟨.str failMessage, .num (.int 1), .str "", .str "", "Error: " ++ failMessage⟩
    rfl rfl rfl rfl rfl

theorem greplyRun_failure_throws_witness :
    ∃ msg, greplyRun bareEnv sampleFS (exitsWith (.num (.int 2)) failMessage "half a line" "bad")
        sampleOpts
        = .error (.enriched msg (.num (.int 2)) (.str "half a line") (.str "bad"))
      ∧ Contains msg failMessage ∧ Contains msg "half a line" ∧ Contains msg "bad" :=
  greplyRun_failure_throws bareEnv sampleFS _ sampleOpts ["needle", "/work"]
    ⟨.str failMessage, .num (.int 2), .str "half a line", .str "bad", "Error: " ++ failMessage⟩
    2 failMessage "half a line" "bad" (Or.inl rfl) rfl rfl rfl rfl rfl rfl
    (Or.inl ⟨by decide, by decide⟩)

theorem greplyRun_failure_suppressed_witness :
    greplyRun bareEnv sampleFS (exitsWith (.num (.int 2)) failMessage "half a line" "") suppressOpts
      = .ok ⟨.str "half a line", if "" = "" then .str failMessage else .str "", .undefined⟩ :=
  greplyRun_failure_suppressed bareEnv sampleFS _ suppressOpts ["needle", "/work"]
    ⟨.str failMessage, .num (.int 2), .str "half a line", .str "", "Error: " ++ failMessage⟩
    2 failMessage "half a line" "" rfl rfl rfl rfl rfl rfl rfl (Or.inl ⟨by decide, by decide⟩)

theorem greplyRun_suppressed_counterexample :
    buildArgs bareEnv.cwd suppressOpts = .ok ["needle", "/work"]
      ∧ exitsWith (.num (.int 2)) failMessage "half a line" ""
          (greplyCmdOf bareEnv sampleFS suppressOpts.greplyCmd) ["needle", "/work"]
          = .rejected ⟨.str failMessage, .num (.int 2), .str "half a line", .str "",
              "Error: " ++ failMessage⟩
      ∧ greplyRun bareEnv sampleFS (exitsWith (.num (.int 2)) failMessage "half a line" "")
          suppressOpts = .ok ⟨.str "half a line", .str failMessage, .undefined⟩
      ∧ JSVal.str failMessage ≠ JSVal.str "" :=
  ⟨rfl, rfl, rfl, by decide⟩

theorem greplyRun_spawnError_witness :
    ((sampleOpts.suppressErrors = .undefined ∨ sampleOpts.suppressErrors = .bool false) →
        greplyRun bareEnv sampleFS (exitsWith (.str "ENOENT") spawnMessage "" "") sampleOpts
          = .error (.enriched ("greply failed: " ++ spawnMessage) (.str "ENOENT") (.str "")
              (.str "")))
      ∧ (sampleOpts.suppressErrors = .bool true →
          greplyRun bareEnv sampleFS (exitsWith (.str "ENOENT") spawnMessage "" "") sampleOpts
            = .ok ⟨.str "", .str spawnMessage, .undefined⟩) :=
  greplyRun_spawnError bareEnv sampleFS _ sampleOpts ["needle", "/work"]
    ⟨.str spawnMessage, .str "ENOENT", .str "", .str "", "Error: " ++ spawnMessage⟩
    spawnMessage rfl rfl rfl (fun _ h => by cases h) rfl rfl

theorem greplyRun_spawnError_counterexample :
    buildArgs bareEnv.cwd suppressOpts = .ok ["needle", "/work"]
      ∧ exitsWith (.str "ENOENT") spawnMessage "" ""
          (greplyCmdOf bareEnv sampleFS suppressOpts.greplyCmd) ["needle", "/work"]
          = .rejected ⟨.str spawnMessage, .str "ENOENT", .str "", .str "",
              "Error: " ++ spawnMessage⟩
      ∧ greplyRun bareEnv sampleFS (exitsWith (.str "ENOENT") spawnMessage "" "") suppressOpts
          = .ok ⟨.str "", .str spawnMessage, .undefined⟩ :=
  ⟨rfl, rfl, rfl⟩

theorem buildArgs_vector_witness :
    ∃ t, pathResolve "/work" [.str "/work", targetOrDefault flagOpts.target] = .ok t
      ∧ buildArgs "/work" flagOpts = .ok (argVectorSpec flagOpts "needle" t) :=
  buildArgs_vector "/work" flagOpts "needle" rfl (by decide) (Or.inr ⟨_, rfl⟩)

theorem buildArgs_vector_counterexample :
    nullTargetOpts.query = .str "needle" ∧ ¬ Blank "needle"
      ∧ buildArgs "/work" nullTargetOpts = .error .invalidArgType :=
  ⟨rfl, by decide, rfl⟩

theorem buildArgs_validation_counterexample :
    ¬ QueryRejected numTargetOpts.query
      ∧ buildArgs "/work" numTargetOpts = .error .invalidArgType := by
  refine ⟨?_, rfl⟩
  rintro (h | h | ⟨s, h, hb⟩)
  · cases h
  · exact h "needle" rfl
  · have hs : "needle" = s := by injection h
    subst hs
    revert hb
    decide

theorem buildArgs_validation_witness :
    (∃ args, buildArgs "/work" sampleOpts = .ok args)
      ∧ buildArgs "/work" Opts.empty = .error (.validation validationMessage) :=
  ⟨(buildArgs_validation "/work" sampleOpts).2.2.1
      (fun h => by
        rcases h with h | h | ⟨s, h, hb⟩
        · cases h
        · exact h "needle" rfl
        · have hs : "needle" = s := by injection h
          subst hs
          revert hb
          decide)
      (Or.inl rfl),
    (buildArgs_validation "/work" Opts.empty).2.1 (Or.inl rfl)⟩

theorem executable_priority_counterexample :
    blankEnv.greply_CMD = some " " ∧ " " ≠ ""
      ∧ greplyRun blankEnv sampleFS echoExec sampleOpts = .ok ⟨.str "greply", .str "", .undefined⟩
      ∧ greplyHelp blankEnv sampleFS echoExec .undefined
          = .ok ⟨.str "greply", .str "", .undefined⟩ :=
  ⟨rfl, by decide, rfl, rfl⟩

theorem executable_priority_witness :
    greplyCmdOf sampleEnv sampleFS (.str "/opt/greply") = .str "/opt/greply"
      ∧ greplyCmdOf sampleEnv sampleFS .undefined = .str "/pkg/greply.sh"
      ∧ greplyCmdOf blankEnv sampleFS .undefined = .str "greply" :=
  ⟨(executable_priority sampleEnv sampleFS (.str "/opt/greply")).2.2.1 rfl,
    (executable_priority sampleEnv sampleFS .undefined).2.2.2.2.1 rfl (Or.inl rfl)
      "/pkg/greply.sh" rfl rfl,
    (executable_priority blankEnv sampleFS .undefined).2.2.2.2.2 rfl
      (Or.inr ⟨" ", rfl, by decide⟩) (Or.inl rfl)⟩

theorem install_never_overwrites_witness :
    ((install sampleEnv sampleFS pkgInstall).2 = .error (destinationExists "/pkg/greply.sh")
        ∧ destinationExists "/pkg/greply.sh"
            = .coded ("Destination exists: " ++ "/pkg/greply.sh" ++ ".") "EEXIST"
        ∧ (install sampleEnv sampleFS pkgInstall).1.bytesAt (canon sampleEnv.cwd "/pkg/greply.sh")
            = sampleFS.bytesAt (canon sampleEnv.cwd "/pkg/greply.sh"))
      ∧ ∃ b bytes, sampleEnv.bundled = some b
          ∧ sampleFS.bytesAt (canon sampleEnv.cwd b) = some bytes
          ∧ (install sampleEnv sampleFS defaultInstall).1.bytesAt
              (canon sampleEnv.cwd "/home/u/.local/bin/greply") = some bytes
          ∧ (install sampleEnv (install sampleEnv sampleFS defaultInstall).1 defaultInstall).2
              = .error (destinationExists "/home/u/.local/bin/greply")
          ∧ (install sampleEnv (install sampleEnv sampleFS defaultInstall).1 defaultInstall).1.bytesAt
              (canon sampleEnv.cwd "/home/u/.local/bin/greply") = some bytes :=
  ⟨(install_never_overwrites sampleEnv pkgInstall).1 sampleFS "/pkg/greply.sh" "/pkg/greply.sh"
      rfl rfl rfl rfl,
    (install_never_overwrites sampleEnv defaultInstall).2 sampleFS
      ⟨true, "/home/u/.local/bin/greply"⟩ rfl⟩

end Greply
